import Mathlib

/-!
# Verification of the AI Web Builder agent core (`agent/main.py`)

Shallow embedding of the conversation store, the fenced-code-block
extractor and the `generate_website` orchestration of `AIWebAgent`,
together with proofs of the specified properties.

Text is modelled as `List Char`.  Python's `re.search` on the two
literal-delimited patterns `` ```html\n([\s\S]*?)\n``` `` and
`` ```\n([\s\S]*?)\n``` `` is modelled by `searchFence`: the scan tries
start positions left to right (leftmost match wins) and, at a given
start, the lazy group takes the closest following closing delimiter
(shortest group wins) — exactly Python's leftmost / non-greedy
semantics for these patterns, whose pieces are string literals.
-/

/-- The backtick character (written via its code point). -/
def btChar : Char := Char.ofNat 96

/-- `startsWith p s` holds when the literal `p` occurs at the head of `s`
(the anchored-match primitive of the regex model). -/
def startsWith (p s : List Char) : Bool :=
  match p, s with
  | [], _ => true
  | _ :: _, [] => false
  | a :: p', b :: s' => a == b && startsWith p' s'

/-- Index of the first occurrence of the literal `p` in `s`, if any. -/
def findSub (p : List Char) : List Char → Option Nat
  | [] => if startsWith p [] then some 0 else none
  | c :: l => if startsWith p (c :: l) then some 0 else (findSub p l).map (· + 1)

/-- Whether the literal `p` occurs somewhere in `s`. -/
def occurs (p s : List Char) : Bool := (findSub p s).isSome

/-- Model of `re.search(opening + "([\s\S]*?)" + close, s)` for literal
`opening` and `close`: returns `(i, g)` where `i` is the match start
(position of `opening`) and `g` the length of the lazily matched group,
or `none` when no start position allows a full match. -/
def searchFence (opening close : List Char) : List Char → Option (Nat × Nat)
  | [] =>
    if startsWith opening [] then (findSub close ([] : List Char)).map (fun j => (0, j))
    else none
  | c :: l =>
    if startsWith opening (c :: l) then
      match findSub close ((c :: l).drop opening.length) with
      | some j => some (0, j)
      | none => (searchFence opening close l).map (fun q => (q.1 + 1, q.2))
    else (searchFence opening close l).map (fun q => (q.1 + 1, q.2))

/-- The whitespace predicate of Python's `str.strip()` (ASCII range:
space, tab, newline, carriage return, vertical tab, form feed). -/
def isPySpace (c : Char) : Bool :=
  c == ' ' || c == '\t' || c == '\n' || c == '\r' || c == Char.ofNat 11 || c == Char.ofNat 12

/-- Model of Python's `str.strip()`: drop whitespace from both ends. -/
def pyStrip (s : List Char) : List Char :=
  ((s.dropWhile isPySpace).reverse.dropWhile isPySpace).reverse

/-- Opening delimiter of the html-tagged pattern: `` ```html\n ``. -/
def openHtml : List Char := "```html\n".data

/-- Opening delimiter of the untagged pattern: `` ```\n ``. -/
def openGeneric : List Char := "```\n".data

/-- Closing delimiter shared by both patterns: `` \n``` ``. -/
def closeFence : List Char := "\n```".data

/-- `AIWebAgent.extract_code_from_response`: try the `` ```html ``-tagged
fence, then an untagged fence, else return the whole response as the
explanation with empty code.  Returns `(explanation, code)`. -/
def extract_code_from_response (response : List Char) : List Char × List Char :=
  match searchFence openHtml closeFence response with
  | some (i, g) =>
    (pyStrip (response.take i), pyStrip ((response.drop (i + openHtml.length)).take g))
  | none =>
    match searchFence openGeneric closeFence response with
    | some (i, g) =>
      (pyStrip (response.take i), pyStrip ((response.drop (i + openGeneric.length)).take g))
    | none => (response, [])

/-- A conversation message (`Message` dataclass); `datetime.now()` is
modelled as an abstract `Nat` tick supplied by the caller. -/
structure Message where
  role : List Char
  content : List Char
  timestamp : Nat

/-- A `{"role": ..., "content": ...}` dictionary of the outbound API
payload (timestamps are not sent). -/
structure OutMessage where
  role : List Char
  content : List Char

/-- The dictionary returned by `generate_website`. -/
structure GenResult where
  code : List Char
  explanation : List Char
  error : List Char

/-- The mutable fields of `AIWebAgent`. -/
structure AgentState where
  api_key : Option (List Char)
  conversation_history : List Message
  generated_code : List Char

/-- Python truthiness of `self.api_key`: `None` and `""` are both
falsy, so `if not self.api_key` fires exactly when this is `false`. -/
def hasApiKey : Option (List Char) → Bool
  | none => false
  | some k => !k.isEmpty

/-- `AIWebAgent.add_message`: append a message to the history. -/
def add_message (s : AgentState) (role content : List Char) (now : Nat) : AgentState :=
  { s with conversation_history := s.conversation_history ++ [⟨role, content, now⟩] }

/-- The fixed system prompt set in `AIWebAgent.__init__`. -/
def system_prompt : List Char :=
  "You are an expert web developer specializing in modern, clean HTML, CSS, and vanilla JavaScript. Your task is to create complete, professional websites based on user requests.\n\nRules:\n1. Generate a single HTML file with embedded CSS (in <style>) and JavaScript (in <script>)\n2. Use modern HTML5 semantic elements, CSS Grid/Flexbox, CSS custom properties\n3. Include responsive design for mobile, tablet, and desktop\n4. Use modern CSS features (oklch colors, :has(), container queries where appropriate)\n5. Ensure accessibility (ARIA labels, semantic HTML, keyboard navigation)\n6. Keep JavaScript minimal and focused on necessary interactivity\n7. No external libraries or frameworks - pure vanilla HTML/CSS/JS\n8. Provide complete, working code that renders immediately\n9. Include a proper DOCTYPE, viewport meta tag, and character encoding\n10. Use placeholder images from https://via.placeholder.com when images are needed\n\nWhen the user asks to modify an existing website, update the entire HTML file with the changes applied.\n\nRespond with the complete HTML code within ```html and ``` code blocks. Add a brief explanation before the code block.".data

/-- Python's `l[-n:]` slice (for `n = 0` the slice is the whole list). -/
def pySliceLast (n : Nat) (l : List α) : List α :=
  if n = 0 then l else l.drop (l.length - n)

/-- The outbound message list built in `generate_website`: the system
prompt followed by `self.conversation_history[-10:]`. -/
def build_messages (history : List Message) : List OutMessage :=
  ⟨"system".data, system_prompt⟩ :: (pySliceLast 10 history).map (fun m => ⟨m.role, m.content⟩)

/-- `AIWebAgent.generate_website`.  The external HTTP call
(`_call_openai_api`) is a parameter `api` mapping the outbound message
list to either the reply text or the message of the raised exception;
`t1`/`t2` are the clock readings of the two `datetime.now()` calls. -/
def generate_website (s : AgentState) (user_request : List Char) (t1 t2 : Nat)
    (api : List OutMessage → Except (List Char) (List Char)) : AgentState × GenResult :=
  if hasApiKey s.api_key = false then
    (s, ⟨[], [], "API key not set. Please set your OpenAI API key.".data⟩)
  else
    let s1 := add_message s ("user".data) user_request t1
    match api (build_messages s1.conversation_history) with
    | Except.error e => (s1, ⟨[], [], "Error generating website: ".data ++ e⟩)
    | Except.ok response_text =>
      let ec := extract_code_from_response response_text
      let s2 : AgentState := { s1 with generated_code := ec.2 }
      let s3 := add_message s2 ("assistant".data) response_text t2
      (s3, ⟨ec.2, ec.1, []⟩)

/-- `AIWebAgent.clear_history`. -/
def clear_history (s : AgentState) : AgentState :=
  { s with conversation_history := [], generated_code := [] }

example : extract_code_from_response ("Here you go\n```html\n<p>hi</p>\n```\nTrailing".data)
    = ("Here you go".data, "<p>hi</p>".data) := by decide

example : extract_code_from_response ("```\n<p>x</p>\n```".data)
    = ([], "<p>x</p>".data) := by decide

example : extract_code_from_response ("  hi  ".data) = ("  hi  ".data, []) := by decide

/-! ## Basic lemmas about the literal-match primitives -/

theorem startsWith_cons (a : Char) (p' : List Char) (b : Char) (s' : List Char) :
    startsWith (a :: p') (b :: s') = ((a == b) && startsWith p' s') := rfl

theorem startsWith_self_append (l t : List Char) : startsWith l (l ++ t) = true := by
  induction l with
  | nil => rfl
  | cons c l ih => simp [startsWith, ih]

theorem startsWith_nil_right (p : List Char) (h : p ≠ []) : startsWith p [] = false := by
  cases p with
  | nil => simp at h
  | cons a p' => rfl

theorem startsWith_head_ne (a c : Char) (p' l : List Char) (h : c ≠ a) :
    startsWith (a :: p') (c :: l) = false := by
  rw [startsWith_cons]
  have hac : (a == c) = false := by
    simpa using (Ne.symm h)
  simp [hac]

theorem findSub_cons (p : List Char) (c : Char) (l : List Char) :
    findSub p (c :: l)
      = if startsWith p (c :: l) then some 0 else (findSub p l).map (· + 1) := rfl

theorem findSub_cons_neg (p : List Char) (c : Char) (l : List Char)
    (h : startsWith p (c :: l) = false) :
    findSub p (c :: l) = (findSub p l).map (· + 1) := by
  rw [findSub_cons, h]
  simp

theorem findSub_self (p t : List Char) (hp : p ≠ []) : findSub p (p ++ t) = some 0 := by
  cases p with
  | nil => simp at hp
  | cons a p' =>
    have h := startsWith_self_append (a :: p') t
    rw [List.cons_append] at h ⊢
    rw [findSub_cons, h]
    simp

theorem occurs_cons (p : List Char) (c : Char) (l : List Char) :
    occurs p (c :: l) = (startsWith p (c :: l) || occurs p l) := by
  unfold occurs
  rw [findSub_cons]
  by_cases h : startsWith p (c :: l) <;> cases hf : findSub p l <;> simp [h, hf]

theorem findSub_append_all_ne (a : Char) (p u l : List Char)
    (hu : u.all (· != a) = true) :
    findSub (a :: p) (u ++ l) = (findSub (a :: p) l).map (· + u.length) := by
  induction u with
  | nil =>
    simp only [List.nil_append, List.length_nil]
    cases findSub (a :: p) l <;> simp
  | cons c u ih =>
    simp only [List.all_cons, Bool.and_eq_true, bne_iff_ne, ne_eq] at hu
    have hca : c ≠ a := hu.1
    have hu2 : u.all (· != a) = true := by
      simpa [List.all_eq_true] using hu.2
    rw [List.cons_append, findSub_cons_neg _ _ _ (startsWith_head_ne a c p _ hca), ih hu2]
    cases findSub (a :: p) l <;> simp
    omega

theorem occurs_append_all_ne (a : Char) (p u l : List Char)
    (hu : u.all (· != a) = true) :
    occurs (a :: p) (u ++ l) = occurs (a :: p) l := by
  unfold occurs
  rw [findSub_append_all_ne a p u l hu]
  cases findSub (a :: p) l <;> simp

/-! ## Locating a fence whose body is free of the closing delimiter -/

theorem closeFence_cons : closeFence = '\n' :: btChar :: btChar :: btChar :: [] := by decide

theorem findSub_close_boundary (c t : List Char) (h : occurs closeFence c = false) :
    findSub closeFence (c ++ (closeFence ++ t)) = some c.length := by
  induction c with
  | nil =>
    simpa using findSub_self closeFence t (by decide)
  | cons x c ih =>
    rw [occurs_cons] at h
    simp only [Bool.or_eq_false_iff] at h
    have hbn : (btChar == '\n') = false := by decide
    have hstep : startsWith closeFence (x :: (c ++ (closeFence ++ t))) = false := by
      rcases c with _ | ⟨y, _ | ⟨z, _ | ⟨w, r⟩⟩⟩
      · simp [closeFence_cons, startsWith, hbn]
      · simp [closeFence_cons, startsWith, hbn]
      · simp [closeFence_cons, startsWith, hbn]
      · have hpre := h.1
        simp only [closeFence_cons, startsWith, List.cons_append] at hpre ⊢
        simpa using hpre
    rw [List.cons_append, findSub_cons_neg _ _ _ hstep, ih h.2]
    simp

theorem searchFence_cons_neg (op cl : List Char) (c : Char) (l : List Char)
    (h : startsWith op (c :: l) = false) :
    searchFence op cl (c :: l) = (searchFence op cl l).map (fun q => (q.1 + 1, q.2)) := by
  simp [searchFence, h]

theorem searchFence_append_all_ne (a : Char) (p cl u l : List Char)
    (hu : u.all (· != a) = true) :
    searchFence (a :: p) cl (u ++ l)
      = (searchFence (a :: p) cl l).map (fun q => (q.1 + u.length, q.2)) := by
  induction u with
  | nil =>
    simp only [List.nil_append, List.length_nil]
    cases searchFence (a :: p) cl l <;> simp
  | cons c u ih =>
    simp only [List.all_cons, Bool.and_eq_true, bne_iff_ne, ne_eq] at hu
    have hu2 : u.all (· != a) = true := by
      simpa [List.all_eq_true] using hu.2
    rw [List.cons_append, searchFence_cons_neg _ _ _ _ (startsWith_head_ne a c p _ hu.1),
      ih hu2]
    cases searchFence (a :: p) cl l <;> simp
    omega

theorem searchFence_at_fence (a : Char) (p' c t : List Char)
    (hc : occurs closeFence c = false) :
    searchFence (a :: p') closeFence ((a :: p') ++ (c ++ (closeFence ++ t)))
      = some (0, c.length) := by
  have hself := startsWith_self_append (a :: p') (c ++ (closeFence ++ t))
  have hdrop : ((a :: p') ++ (c ++ (closeFence ++ t))).drop (a :: p').length
      = c ++ (closeFence ++ t) := List.drop_left _ _
  rw [List.cons_append] at hself hdrop
  rw [List.cons_append]
  simp only [searchFence, hself, if_true]
  rw [hdrop, findSub_close_boundary c t hc]

theorem searchFence_exact (a : Char) (p' e c t : List Char)
    (he : e.all (· != a) = true) (hc : occurs closeFence c = false) :
    searchFence (a :: p') closeFence (e ++ ((a :: p') ++ (c ++ (closeFence ++ t))))
      = some (e.length, c.length) := by
  rw [searchFence_append_all_ne a p' closeFence e _ he,
    searchFence_at_fence a p' c t hc]
  simp

/-! ## Structural behaviour of the extractor -/

theorem searchFence_none_of_not_occurs (op cl s : List Char) (hne : op ≠ [])
    (h : occurs op s = false) : searchFence op cl s = none := by
  induction s with
  | nil => simp [searchFence, startsWith_nil_right op hne]
  | cons c l ih =>
    rw [occurs_cons] at h
    simp only [Bool.or_eq_false_iff] at h
    rw [searchFence_cons_neg _ _ _ _ h.1, ih h.2]
    rfl

theorem extract_at_html (e c t : List Char)
    (he : e.all (· != btChar) = true) (hc : occurs closeFence c = false) :
    extract_code_from_response (e ++ (openHtml ++ (c ++ (closeFence ++ t))))
      = (pyStrip e, pyStrip c) := by
  have hoh : openHtml = btChar :: "``html\n".data := by decide
  have hs : searchFence openHtml closeFence (e ++ (openHtml ++ (c ++ (closeFence ++ t))))
      = some (e.length, c.length) := by
    rw [hoh]
    exact searchFence_exact btChar _ e c t he hc
  have h1 : (e ++ (openHtml ++ (c ++ (closeFence ++ t)))).take e.length = e :=
    List.take_left _ _
  have h2 : (e ++ (openHtml ++ (c ++ (closeFence ++ t)))).drop (e.length + openHtml.length)
      = c ++ (closeFence ++ t) := by
    rw [show e ++ (openHtml ++ (c ++ (closeFence ++ t)))
          = (e ++ openHtml) ++ (c ++ (closeFence ++ t)) by simp [List.append_assoc],
      show e.length + openHtml.length = (e ++ openHtml).length by simp]
    exact List.drop_left _ _
  have h3 : (c ++ (closeFence ++ t)).take c.length = c := List.take_left _ _
  unfold extract_code_from_response
  rw [hs]
  simp only [h1, h2, h3]

theorem extract_at_generic (e c t : List Char)
    (hh : occurs openHtml (e ++ (openGeneric ++ (c ++ (closeFence ++ t)))) = false)
    (he : e.all (· != btChar) = true) (hc : occurs closeFence c = false) :
    extract_code_from_response (e ++ (openGeneric ++ (c ++ (closeFence ++ t))))
      = (pyStrip e, pyStrip c) := by
  have hog : openGeneric = btChar :: "``\n".data := by decide
  have hnone : searchFence openHtml closeFence (e ++ (openGeneric ++ (c ++ (closeFence ++ t))))
      = none := searchFence_none_of_not_occurs _ _ _ (by decide) hh
  have hs : searchFence openGeneric closeFence (e ++ (openGeneric ++ (c ++ (closeFence ++ t))))
      = some (e.length, c.length) := by
    rw [hog]
    exact searchFence_exact btChar _ e c t he hc
  have h1 : (e ++ (openGeneric ++ (c ++ (closeFence ++ t)))).take e.length = e :=
    List.take_left _ _
  have h2 : (e ++ (openGeneric ++ (c ++ (closeFence ++ t)))).drop (e.length + openGeneric.length)
      = c ++ (closeFence ++ t) := by
    rw [show e ++ (openGeneric ++ (c ++ (closeFence ++ t)))
          = (e ++ openGeneric) ++ (c ++ (closeFence ++ t)) by simp [List.append_assoc],
      show e.length + openGeneric.length = (e ++ openGeneric).length by simp]
    exact List.drop_left _ _
  have h3 : (c ++ (closeFence ++ t)).take c.length = c := List.take_left _ _
  unfold extract_code_from_response
  rw [hnone, hs]
  simp only [h1, h2, h3]

/-! ## Non-occurrence of fence openers -/

theorem occurs_nil (p : List Char) : occurs p [] = startsWith p [] := by
  unfold occurs findSub
  cases h : startsWith p [] <;> simp [h]

theorem startsWith_tag_newline_iff (w u rest : List Char)
    (hw : w.all (· != '\n') = true) (hu : u.all (· != '\n') = true) :
    startsWith (w ++ ('\n' :: [])) (u ++ ('\n' :: rest)) = true ↔ w = u := by
  induction w generalizing u with
  | nil =>
    cases u with
    | nil => simp [startsWith]
    | cons c u' =>
      have hc : c ≠ '\n' := by
        simp only [List.all_cons, Bool.and_eq_true, bne_iff_ne, ne_eq] at hu
        exact hu.1
      have hnc : ('\n' == c) = false := by simpa using (Ne.symm hc)
      simp [startsWith, hnc]
  | cons a w' ih =>
    have ha : a ≠ '\n' := by
      simp only [List.all_cons, Bool.and_eq_true, bne_iff_ne, ne_eq] at hw
      exact hw.1
    have hw' : w'.all (· != '\n') = true := by
      simp only [List.all_cons, Bool.and_eq_true] at hw
      exact hw.2
    cases u with
    | nil =>
      have han : (a == '\n') = false := by simpa using ha
      simp [startsWith, han]
    | cons c u' =>
      have hu' : u'.all (· != '\n') = true := by
        simp only [List.all_cons, Bool.and_eq_true] at hu
        exact hu.2
      simp only [List.cons_append, startsWith, Bool.and_eq_true, beq_iff_eq, List.cons.injEq,
        List.append_eq]
      rw [ih u' hw' hu']

theorem occurs_fence_open_tail (W : List Char) (hW : W ≠ []) :
    occurs (btChar :: btChar :: btChar :: W)
      ('\n' :: btChar :: btChar :: btChar :: []) = false := by
  have h1 : (btChar == '\n') = false := by decide
  have h0 : startsWith W [] = false := startsWith_nil_right W hW
  simp [occurs_cons, occurs_nil, startsWith, h1, h0]

theorem occurs_fence_open_none (w p tag b : List Char)
    (hw : w.all (· != '\n') = true)
    (hp : p.all (· != btChar) = true)
    (hb : b.all (· != btChar) = true)
    (htb : tag.all (· != btChar) = true)
    (htn : tag.all (· != '\n') = true)
    (hne : tag ≠ []) (hwt : w ≠ tag) :
    occurs (btChar :: btChar :: btChar :: (w ++ ('\n' :: [])))
      (p ++ (btChar :: btChar :: btChar ::
        (tag ++ ('\n' :: (b ++ ('\n' :: btChar :: btChar :: btChar :: [])))))) = false := by
  rw [occurs_append_all_ne btChar _ p _ hp]
  rcases tag with _ | ⟨c₀, tag'⟩
  · exact absurd rfl hne
  have hc₀b : c₀ ≠ btChar := by
    simp only [List.all_cons, Bool.and_eq_true, bne_iff_ne, ne_eq] at htb
    exact htb.1
  have htb' : tag'.all (· != btChar) = true := by
    simp only [List.all_cons, Bool.and_eq_true] at htb
    exact htb.2
  have hbc₀ : (btChar == c₀) = false := by simpa using (Ne.symm hc₀b)
  have hbn : (btChar == '\n') = false := by decide
  rw [occurs_cons, occurs_cons, occurs_cons]
  have hsw0 : startsWith (btChar :: btChar :: btChar :: (w ++ ('\n' :: [])))
      (btChar :: btChar :: btChar ::
        ((c₀ :: tag') ++ ('\n' :: (b ++ ('\n' :: btChar :: btChar :: btChar :: []))))) = false := by
    simp only [startsWith, beq_self_eq_true, Bool.true_and]
    cases hbx : startsWith (w ++ ('\n' :: []))
        ((c₀ :: tag') ++ ('\n' :: (b ++ ('\n' :: btChar :: btChar :: btChar :: [])))) with
    | false => rfl
    | true => exact absurd ((startsWith_tag_newline_iff w (c₀ :: tag') _ hw htn).mp hbx) hwt
  have hsw1 : startsWith (btChar :: btChar :: btChar :: (w ++ ('\n' :: [])))
      (btChar :: btChar ::
        ((c₀ :: tag') ++ ('\n' :: (b ++ ('\n' :: btChar :: btChar :: btChar :: []))))) = false := by
    simp [startsWith, hbc₀]
  have hsw2 : startsWith (btChar :: btChar :: btChar :: (w ++ ('\n' :: [])))
      (btChar ::
        ((c₀ :: tag') ++ ('\n' :: (b ++ ('\n' :: btChar :: btChar :: btChar :: []))))) = false := by
    simp [startsWith, hbc₀]
  have htail : occurs (btChar :: btChar :: btChar :: (w ++ ('\n' :: [])))
      ((c₀ :: tag') ++ ('\n' :: (b ++ ('\n' :: btChar :: btChar :: btChar :: [])))) = false := by
    rw [occurs_append_all_ne btChar _ (c₀ :: tag') _ htb, occurs_cons]
    have hswn : startsWith (btChar :: btChar :: btChar :: (w ++ ('\n' :: [])))
        ('\n' :: (b ++ ('\n' :: btChar :: btChar :: btChar :: []))) = false := by
      simp [startsWith, hbn]
    rw [hswn, occurs_append_all_ne btChar _ b _ hb,
      occurs_fence_open_tail (w ++ ('\n' :: [])) (by simp)]
    rfl
  simp only [List.cons_append] at hsw0 hsw1 hsw2 htail ⊢
  rw [hsw0, hsw1, hsw2, htail]
  rfl

/-! ## Lemmas about `pyStrip` -/

theorem dropWhile_eq_drop (q : Char → Bool) (l : List Char) :
    ∃ k, l.dropWhile q = l.drop k := by
  induction l with
  | nil => exact ⟨0, rfl⟩
  | cons c l ih =>
    by_cases hc : q c = true
    · obtain ⟨k, hk⟩ := ih
      exact ⟨k + 1, by rw [List.dropWhile_cons]; simp [hc, hk]⟩
    · exact ⟨0, by rw [List.dropWhile_cons]; simp [hc]⟩

theorem pyStrip_take (u : List Char) :
    ∃ n, pyStrip u = (u.dropWhile isPySpace).take n := by
  have hsuf : (u.dropWhile isPySpace).reverse.dropWhile isPySpace
      <:+ (u.dropWhile isPySpace).reverse := List.dropWhile_suffix _
  have hpre : ((u.dropWhile isPySpace).reverse.dropWhile isPySpace).reverse
      <+: u.dropWhile isPySpace := by
    have h2 := List.reverse_prefix.mpr hsuf
    rwa [List.reverse_reverse] at h2
  refine ⟨((u.dropWhile isPySpace).reverse.dropWhile isPySpace).reverse.length, ?_⟩
  exact List.prefix_iff_eq_take.mp hpre

theorem head?_take_eq (l : List Char) (n : Nat) (a : Char)
    (h : (l.take n).head? = some a) : l.head? = some a := by
  cases l with
  | nil => simp at h
  | cons c l =>
    cases n with
    | zero => simp at h
    | succ n => simpa using h

theorem head?_dropWhile_not (q : Char → Bool) (l : List Char) (a : Char)
    (h : (l.dropWhile q).head? = some a) : q a = false := by
  induction l with
  | nil => simp at h
  | cons c l ih =>
    rw [List.dropWhile_cons] at h
    by_cases hc : q c = true
    · simp only [hc, if_true] at h
      exact ih h
    · have hc' : q c = false := by simpa using hc
      simp only [hc', Bool.false_eq_true, if_false, List.head?_cons] at h
      obtain rfl : c = a := by simpa using h
      exact hc'

theorem dropWhile_eq_self_of_head (q : Char → Bool) (l : List Char)
    (h : ∀ a, l.head? = some a → q a = false) : l.dropWhile q = l := by
  cases l with
  | nil => rfl
  | cons c l =>
    have hc := h c rfl
    rw [List.dropWhile_cons]
    simp [hc]

theorem pyStrip_idem (u : List Char) : pyStrip (pyStrip u) = pyStrip u := by
  have hdef : ∀ x : List Char,
      pyStrip x = ((x.dropWhile isPySpace).reverse.dropWhile isPySpace).reverse :=
    fun _ => rfl
  have hA : (pyStrip u).dropWhile isPySpace = pyStrip u := by
    apply dropWhile_eq_self_of_head
    intro a ha
    obtain ⟨n, hn⟩ := pyStrip_take u
    rw [hn] at ha
    exact head?_dropWhile_not isPySpace u a (head?_take_eq _ n a ha)
  have hC : (pyStrip u).reverse.dropWhile isPySpace = (pyStrip u).reverse := by
    have he : (pyStrip u).reverse = (u.dropWhile isPySpace).reverse.dropWhile isPySpace := by
      rw [hdef u, List.reverse_reverse]
    rw [he]
    apply dropWhile_eq_self_of_head
    intro a ha
    exact head?_dropWhile_not isPySpace _ a ha
  rw [hdef (pyStrip u), hA, hC, List.reverse_reverse]

/-! ## The lazily matched group contains no closing delimiter -/

theorem startsWith_take (p u : List Char) (k : Nat)
    (h : startsWith p (u.take k) = true) : startsWith p u = true := by
  induction p generalizing u k with
  | nil => rfl
  | cons a p' ih =>
    cases u with
    | nil => simp [startsWith] at h
    | cons b u' =>
      cases k with
      | zero => simp [startsWith] at h
      | succ k' =>
        simp only [List.take_succ_cons, startsWith, Bool.and_eq_true] at h ⊢
        exact ⟨h.1, ih u' k' h.2⟩

theorem occurs_drop_mono (p u : List Char) (k : Nat) (h : occurs p u = false) :
    occurs p (u.drop k) = false := by
  induction u generalizing k with
  | nil => simpa using h
  | cons c l ih =>
    cases k with
    | zero => simpa using h
    | succ k' =>
      rw [occurs_cons] at h
      simp only [Bool.or_eq_false_iff] at h
      simpa only [List.drop_succ_cons] using ih k' h.2

theorem occurs_take_mono (p u : List Char) (k : Nat) (h : occurs p u = false) :
    occurs p (u.take k) = false := by
  induction u generalizing k with
  | nil => simpa using h
  | cons c l ih =>
    rw [occurs_cons] at h
    simp only [Bool.or_eq_false_iff] at h
    have hp : p ≠ [] := by
      intro he
      rw [he] at h
      simp [startsWith] at h
    cases k with
    | zero =>
      rw [List.take_zero, occurs_nil, startsWith_nil_right p hp]
    | succ k' =>
      rw [List.take_succ_cons, occurs_cons]
      have h1 : startsWith p (c :: l.take k') = false := by
        cases hx : startsWith p (c :: l.take k') with
        | false => rfl
        | true =>
          have : startsWith p (c :: l) = true :=
            startsWith_take p (c :: l) (k' + 1) (by simpa [List.take_succ_cons] using hx)
          rw [this] at h
          exact absurd h.1 (by simp)
      rw [h1, ih k' h.2]
      rfl

theorem occurs_pyStrip (p u : List Char) (h : occurs p u = false) :
    occurs p (pyStrip u) = false := by
  obtain ⟨k, hk⟩ := dropWhile_eq_drop isPySpace u
  obtain ⟨n, hn⟩ := pyStrip_take u
  rw [hn, hk]
  exact occurs_take_mono _ _ _ (occurs_drop_mono _ _ _ h)

theorem findSub_min (p s : List Char) (j : Nat) (h : findSub p s = some j) :
    ∀ i, i < j → startsWith p (s.drop i) = false := by
  induction s generalizing j with
  | nil =>
    intro i hi
    unfold findSub at h
    cases hs : startsWith p [] with
    | true => rw [hs] at h; simp at h; omega
    | false => rw [hs] at h; simp at h
  | cons c l ih =>
    intro i hi
    rw [findSub_cons] at h
    cases hs : startsWith p (c :: l) with
    | true => rw [hs] at h; simp at h; omega
    | false =>
      rw [hs] at h
      simp only [Bool.false_eq_true, if_false] at h
      cases hf : findSub p l with
      | none => rw [hf] at h; simp at h
      | some j' =>
        rw [hf] at h
        simp only [Option.map_some', Option.some.injEq] at h
        cases i with
        | zero => simpa using hs
        | succ i' =>
          simp only [List.drop_succ_cons]
          exact ih j' hf i' (by omega)


theorem occurs_take_of_findSub (p s : List Char) (j : Nat) (hp : p ≠ [])
    (h : findSub p s = some j) : occurs p (s.take j) = false := by
  induction s generalizing j with
  | nil =>
    rw [show ([] : List Char).take j = [] by simp, occurs_nil]
    exact startsWith_nil_right p hp
  | cons c l ih =>
    rw [findSub_cons] at h
    cases hs : startsWith p (c :: l) with
    | true =>
      rw [hs] at h
      simp only [if_true] at h
      obtain rfl : j = 0 := by simpa using h.symm
      rw [List.take_zero, occurs_nil]
      exact startsWith_nil_right p hp
    | false =>
      rw [hs] at h
      simp only [Bool.false_eq_true, if_false] at h
      cases hf : findSub p l with
      | none => rw [hf] at h; simp at h
      | some j' =>
        rw [hf] at h
        simp only [Option.map_some', Option.some.injEq] at h
        obtain rfl : j = j' + 1 := h.symm
        rw [List.take_succ_cons, occurs_cons]
        have h1 : startsWith p (c :: l.take j') = false := by
          cases hx : startsWith p (c :: l.take j') with
          | false => rfl
          | true =>
            have hcl : startsWith p (c :: l) = true :=
              startsWith_take p (c :: l) (j' + 1) (by simpa [List.take_succ_cons] using hx)
            rw [hcl] at hs
            cases hs
        rw [h1, ih j' hf]
        rfl

theorem searchFence_close (op cl s : List Char) (i g : Nat)
    (h : searchFence op cl s = some (i, g)) :
    findSub cl (s.drop (i + op.length)) = some g := by
  induction s generalizing i g with
  | nil =>
    unfold searchFence at h
    cases hs : startsWith op [] with
    | false => rw [hs] at h; simp at h
    | true =>
      rw [hs] at h
      simp only [if_true] at h
      cases hf : findSub cl ([] : List Char) with
      | none => rw [hf] at h; simp at h
      | some j =>
        rw [hf] at h
        simp only [Option.map_some', Option.some.injEq, Prod.mk.injEq] at h
        obtain ⟨hi, hg⟩ := h
        subst hi hg
        simpa using hf
  | cons c l ih =>
    rw [show searchFence op cl (c :: l)
        = (if startsWith op (c :: l) then
            match findSub cl ((c :: l).drop op.length) with
            | some j => some (0, j)
            | none => (searchFence op cl l).map (fun q => (q.1 + 1, q.2))
          else (searchFence op cl l).map (fun q => (q.1 + 1, q.2))) from rfl] at h
    cases hs : startsWith op (c :: l) with
    | true =>
      rw [hs] at h
      simp only [if_true] at h
      cases hf : findSub cl ((c :: l).drop op.length) with
      | some j =>
        rw [hf] at h
        simp only [Option.some.injEq, Prod.mk.injEq] at h
        obtain ⟨hi, hg⟩ := h
        subst hi hg
        simpa [Nat.zero_add] using hf
      | none =>
        rw [hf] at h
        cases hrec : searchFence op cl l with
        | none => rw [hrec] at h; simp at h
        | some q =>
          rw [hrec] at h
          simp only [Option.map_some', Option.some.injEq, Prod.mk.injEq] at h
          obtain ⟨hi, hg⟩ := h
          subst hi hg
          have hq : searchFence op cl l = some (q.1, q.2) := by simpa using hrec
          have := ih q.1 q.2 hq
          rw [show q.1 + 1 + op.length = (q.1 + op.length) + 1 by omega,
            List.drop_succ_cons]
          exact this
    | false =>
      rw [hs] at h
      simp only [Bool.false_eq_true, if_false] at h
      cases hrec : searchFence op cl l with
      | none => rw [hrec] at h; simp at h
      | some q =>
        rw [hrec] at h
        simp only [Option.map_some', Option.some.injEq, Prod.mk.injEq] at h
        obtain ⟨hi, hg⟩ := h
        subst hi hg
        have hq : searchFence op cl l = some (q.1, q.2) := by simpa using hrec
        have := ih q.1 q.2 hq
        rw [show q.1 + 1 + op.length = (q.1 + op.length) + 1 by omega,
          List.drop_succ_cons]
        exact this

/-! ## Replies without any fence -/

theorem startsWith_append_left_false (p q s : List Char)
    (h : startsWith p s = false) : startsWith (p ++ q) s = false := by
  induction p generalizing s with
  | nil => simp [startsWith] at h
  | cons a p' ih =>
    cases s with
    | nil => rfl
    | cons b s' =>
      rw [List.cons_append]
      simp only [startsWith, Bool.and_eq_false_iff] at h ⊢
      cases h with
      | inl hab => exact Or.inl hab
      | inr htail => exact Or.inr (ih s' htail)

theorem occurs_append_left_false (p q s : List Char) (h : occurs p s = false) :
    occurs (p ++ q) s = false := by
  induction s with
  | nil =>
    rw [occurs_nil] at h ⊢
    exact startsWith_append_left_false p q [] h
  | cons c l ih =>
    rw [occurs_cons] at h ⊢
    simp only [Bool.or_eq_false_iff] at h ⊢
    exact ⟨startsWith_append_left_false p q _ h.1, ih h.2⟩

theorem extract_no_fence (r : List Char) (h : occurs ("```".data) r = false) :
    extract_code_from_response r = (r, []) := by
  have h1 : occurs openHtml r = false := by
    rw [show openHtml = "```".data ++ "html\n".data from by decide]
    exact occurs_append_left_false _ _ _ h
  have h2 : occurs openGeneric r = false := by
    rw [show openGeneric = "```".data ++ "\n".data from by decide]
    exact occurs_append_left_false _ _ _ h
  unfold extract_code_from_response
  rw [searchFence_none_of_not_occurs _ _ _ (by decide) h1,
    searchFence_none_of_not_occurs _ _ _ (by decide) h2]

/-! ## Claims about the extractor -/

/-- **C2.** For every raw reply containing a fenced block tagged `html`
— decomposed as prose `e` (backtick-free), the opening marker
`` ```html\n ``, a body `c` free of the closing delimiter `` \n``` ``,
the closing marker, and arbitrary trailing text `t` —
`extract_code_from_response` returns as code the fence body
whitespace-stripped, and as explanation the text strictly before the
opening marker whitespace-stripped; the trailing text appears in
neither component. -/
theorem c2_html_fence_extraction (e c t : List Char)
    (he : e.all (· != btChar) = true) (hc : occurs closeFence c = false) :
    extract_code_from_response (e ++ (openHtml ++ (c ++ (closeFence ++ t))))
      = (pyStrip e, pyStrip c) :=
  extract_at_html e c t he hc

theorem c2_html_fence_extraction_witness :
    ("Here you go\n".data.all (· != btChar) = true)
      ∧ occurs closeFence ("<p>hi</p>".data) = false
      ∧ extract_code_from_response
          ("Here you go\n".data
            ++ (openHtml ++ ("<p>hi</p>".data ++ (closeFence ++ "\nTrailing".data))))
          = ("Here you go".data, "<p>hi</p>".data) :=
  ⟨by decide, by decide,
    (c2_html_fence_extraction ("Here you go\n".data) ("<p>hi</p>".data)
        ("\nTrailing".data) (by decide) (by decide)).trans (by decide)⟩

/-- **C6.** For every raw reply with no `` ```html\n `` marker anywhere
but containing an untagged fence — prose `e` (backtick-free), marker
`` ```\n ``, body `c` free of the closing delimiter, closing marker,
trailing `t` — the extractor applies the same rule to the first
untagged fence: stripped body as code, stripped preceding text as
explanation. -/
theorem c6_generic_fence_extraction (e c t : List Char)
    (hh : occurs openHtml (e ++ (openGeneric ++ (c ++ (closeFence ++ t)))) = false)
    (he : e.all (· != btChar) = true) (hc : occurs closeFence c = false) :
    extract_code_from_response (e ++ (openGeneric ++ (c ++ (closeFence ++ t))))
      = (pyStrip e, pyStrip c) :=
  extract_at_generic e c t hh he hc

theorem c6_generic_fence_extraction_witness :
    occurs openHtml (([] : List Char) ++ (openGeneric ++ ("<p>x</p>".data ++ (closeFence ++ [])))) = false
      ∧ (([] : List Char).all (· != btChar) = true)
      ∧ occurs closeFence ("<p>x</p>".data) = false
      ∧ extract_code_from_response
          (([] : List Char) ++ (openGeneric ++ ("<p>x</p>".data ++ (closeFence ++ []))))
          = ([], "<p>x</p>".data) :=
  ⟨by decide, by decide, by decide,
    (c6_generic_fence_extraction [] ("<p>x</p>".data) [] (by decide) (by decide)
        (by decide)).trans (by decide)⟩

/-- **C7 counterexample:** on the fence-free input `"  hi  "` the
extractor returns the input *unchanged* as the explanation — not
whitespace-trimmed as the claim states. -/
theorem c7_untrimmed_counterexample :
    (extract_code_from_response ("  hi  ".data)).1 = "  hi  ".data
      ∧ (extract_code_from_response ("  hi  ".data)).1 ≠ pyStrip ("  hi  ".data) := by
  decide

/-- **C7 (amended).** For every raw reply containing no fenced block at
all (no triple backtick anywhere), `extract_code_from_response` returns
the entire input *unchanged* (not trimmed) as the explanation and the
empty string as the code. -/
theorem c7_no_fence_full_explanation (r : List Char)
    (h : occurs ("```".data) r = false) :
    extract_code_from_response r = (r, []) :=
  extract_no_fence r h

theorem c7_no_fence_full_explanation_witness :
    occurs ("```".data) ("Just prose, nothing else.".data) = false
      ∧ extract_code_from_response ("Just prose, nothing else.".data)
          = ("Just prose, nothing else.".data, []) :=
  ⟨by decide, c7_no_fence_full_explanation ("Just prose, nothing else.".data) (by decide)⟩

/-- **C8.** Extraction is idempotent on its code component: whenever
extraction of `r` goes through the html-tagged fence (the search
succeeds) yielding code `c`, re-extracting from `"```html\n" + c +
"\n```"` yields code `c` again. -/
theorem c8_extract_idempotent (r : List Char) (i g : Nat)
    (h : searchFence openHtml closeFence r = some (i, g)) :
    (extract_code_from_response
        (openHtml ++ ((extract_code_from_response r).2 ++ closeFence))).2
      = (extract_code_from_response r).2 := by
  have hgrp : findSub closeFence (r.drop (i + openHtml.length)) = some g :=
    searchFence_close _ _ _ _ _ h
  have hocc : occurs closeFence ((r.drop (i + openHtml.length)).take g) = false :=
    occurs_take_of_findSub _ _ _ (by decide) hgrp
  have hext : extract_code_from_response r
      = (pyStrip (r.take i), pyStrip ((r.drop (i + openHtml.length)).take g)) := by
    unfold extract_code_from_response
    rw [h]
  have hc2 : (extract_code_from_response r).2
      = pyStrip ((r.drop (i + openHtml.length)).take g) := by rw [hext]
  have hoccc : occurs closeFence ((extract_code_from_response r).2) = false := by
    rw [hc2]
    exact occurs_pyStrip _ _ hocc
  have happ : openHtml ++ ((extract_code_from_response r).2 ++ closeFence)
      = ([] : List Char)
        ++ (openHtml ++ ((extract_code_from_response r).2 ++ (closeFence ++ []))) := by
    simp
  rw [happ, extract_at_html ([] : List Char) _ ([] : List Char) (by decide) hoccc]
  show pyStrip ((extract_code_from_response r).2) = (extract_code_from_response r).2
  rw [hc2, pyStrip_idem]

theorem c8_extract_idempotent_witness :
    searchFence openHtml closeFence ("Intro\n```html\n<p>hi</p>\n```\nBye".data)
        = some (6, 9)
      ∧ (extract_code_from_response
          (openHtml
            ++ ((extract_code_from_response ("Intro\n```html\n<p>hi</p>\n```\nBye".data)).2
              ++ closeFence))).2
        = (extract_code_from_response ("Intro\n```html\n<p>hi</p>\n```\nBye".data)).2 :=
  ⟨by decide, c8_extract_idempotent ("Intro\n```html\n<p>hi</p>\n```\nBye".data) 6 9 (by decide)⟩

/-- **C10.** A reply whose only fence carries a language tag other than
`html` (no backticks in the prose `p` or body `b`, tag nonempty and
free of backticks and newlines) is treated as having no fence at all:
empty code, and the entire raw text — unmodified — as the explanation. -/
theorem c10_foreign_tag_ignored (p tag b : List Char)
    (hp : p.all (· != btChar) = true)
    (hb : b.all (· != btChar) = true)
    (htb : tag.all (· != btChar) = true)
    (htn : tag.all (· != '\n') = true)
    (hne : tag ≠ []) (hhtml : tag ≠ "html".data) :
    extract_code_from_response
        (p ++ ("```".data ++ (tag ++ ("\n".data ++ (b ++ "\n```".data)))))
      = (p ++ ("```".data ++ (tag ++ ("\n".data ++ (b ++ "\n```".data)))), []) := by
  have hshape : p ++ ("```".data ++ (tag ++ ("\n".data ++ (b ++ "\n```".data))))
      = p ++ (btChar :: btChar :: btChar ::
          (tag ++ ('\n' :: (b ++ ('\n' :: btChar :: btChar :: btChar :: []))))) := by
    rw [show "```".data = btChar :: btChar :: btChar :: [] from by decide,
      show "\n".data = '\n' :: [] from by decide,
      show "\n```".data = '\n' :: btChar :: btChar :: btChar :: [] from by decide]
    simp
  have h1 : occurs openHtml
      (p ++ ("```".data ++ (tag ++ ("\n".data ++ (b ++ "\n```".data))))) = false := by
    rw [hshape,
      show openHtml = btChar :: btChar :: btChar :: ("html".data ++ ('\n' :: [])) from by decide]
    exact occurs_fence_open_none ("html".data) p tag b (by decide) hp hb htb htn hne
      (Ne.symm hhtml)
  have h2 : occurs openGeneric
      (p ++ ("```".data ++ (tag ++ ("\n".data ++ (b ++ "\n```".data))))) = false := by
    rw [hshape,
      show openGeneric = btChar :: btChar :: btChar :: (([] : List Char) ++ ('\n' :: [])) from by decide]
    exact occurs_fence_open_none [] p tag b (by decide) hp hb htb htn hne (Ne.symm hne)
  unfold extract_code_from_response
  rw [searchFence_none_of_not_occurs _ _ _ (by decide) h1,
    searchFence_none_of_not_occurs _ _ _ (by decide) h2]

theorem c10_foreign_tag_ignored_witness :
    ("A lovely page:\n".data.all (· != btChar) = true)
      ∧ ("p em strong".data.all (· != btChar) = true)
      ∧ ("css".data.all (· != btChar) = true)
      ∧ ("css".data.all (· != '\n') = true)
      ∧ ("css".data ≠ ([] : List Char))
      ∧ ("css".data ≠ "html".data)
      ∧ extract_code_from_response
          ("A lovely page:\n".data
            ++ ("```".data ++ ("css".data ++ ("\n".data ++ ("p em strong".data ++ "\n```".data)))))
          = ("A lovely page:\n".data
              ++ ("```".data ++ ("css".data ++ ("\n".data ++ ("p em strong".data ++ "\n```".data)))),
            []) :=
  ⟨by decide, by decide, by decide, by decide, by decide, by decide,
    c10_foreign_tag_ignored ("A lovely page:\n".data) ("css".data) ("p em strong".data)
      (by decide) (by decide) (by decide) (by decide) (by decide) (by decide)⟩

/-! ## Claims about the orchestration and conversation store -/

theorem drop_concat_getLast {α : Type} (old : List α) (m : α) (k : Nat)
    (hk : k ≤ old.length) : ((old ++ [m]).drop k).getLast? = some m := by
  induction old generalizing k with
  | nil =>
    obtain rfl : k = 0 := Nat.le_zero.mp (by simpa using hk)
    simp
  | cons x old' ih =>
    cases k with
    | zero => simpa using List.getLast?_concat (x :: old')
    | succ k' =>
      rw [List.cons_append, List.drop_succ_cons]
      exact ih k' (by simpa using hk)

/-- **C1.** With a credential configured and the completion call
returning reply `resp`, `generate_website` appends exactly two messages
— the user request, then the raw unextracted reply as an assistant
message — sets `generated_code` to the code extracted from the reply
(even if empty), and returns code/explanation equal to the extraction
result with an empty error. -/
theorem c1_success_path (s : AgentState) (u resp : List Char) (t1 t2 : Nat)
    (api : List OutMessage → Except (List Char) (List Char))
    (hkey : hasApiKey s.api_key = true)
    (hok : api (build_messages ((add_message s ("user".data) u t1).conversation_history))
        = Except.ok resp) :
    (generate_website s u t1 t2 api).1.conversation_history
        = s.conversation_history
          ++ [⟨"user".data, u, t1⟩, ⟨"assistant".data, resp, t2⟩]
      ∧ (generate_website s u t1 t2 api).1.generated_code
          = (extract_code_from_response resp).2
      ∧ (generate_website s u t1 t2 api).2.code = (extract_code_from_response resp).2
      ∧ (generate_website s u t1 t2 api).2.explanation
          = (extract_code_from_response resp).1
      ∧ (generate_website s u t1 t2 api).2.error = [] := by
  have hg : generate_website s u t1 t2 api
      = (add_message { add_message s ("user".data) u t1 with
            generated_code := (extract_code_from_response resp).2 }
          ("assistant".data) resp t2,
        ⟨(extract_code_from_response resp).2, (extract_code_from_response resp).1, []⟩) := by
    unfold generate_website
    rw [if_neg (by simp [hkey])]
    simp only [hok]
  rw [hg]
  simp [add_message]

theorem c1_success_path_witness :
    hasApiKey (some ("k".data)) = true
      ∧ ((fun _ : List OutMessage => (Except.ok ("ok\n```html\n<p>w</p>\n```".data) : Except (List Char) (List Char)))
          (build_messages ((add_message ⟨some ("k".data), [], []⟩ ("user".data)
            ("make a page".data) 0).conversation_history))
          = (Except.ok ("ok\n```html\n<p>w</p>\n```".data) : Except (List Char) (List Char)))
      ∧ ((generate_website ⟨some ("k".data), [], []⟩ ("make a page".data) 0 1
            (fun _ => Except.ok ("ok\n```html\n<p>w</p>\n```".data))).1.conversation_history
          = [] ++ [⟨"user".data, "make a page".data, 0⟩,
              ⟨"assistant".data, "ok\n```html\n<p>w</p>\n```".data, 1⟩]
        ∧ (generate_website ⟨some ("k".data), [], []⟩ ("make a page".data) 0 1
            (fun _ => Except.ok ("ok\n```html\n<p>w</p>\n```".data))).1.generated_code
          = (extract_code_from_response ("ok\n```html\n<p>w</p>\n```".data)).2
        ∧ (generate_website ⟨some ("k".data), [], []⟩ ("make a page".data) 0 1
            (fun _ => Except.ok ("ok\n```html\n<p>w</p>\n```".data))).2.code
          = (extract_code_from_response ("ok\n```html\n<p>w</p>\n```".data)).2
        ∧ (generate_website ⟨some ("k".data), [], []⟩ ("make a page".data) 0 1
            (fun _ => Except.ok ("ok\n```html\n<p>w</p>\n```".data))).2.explanation
          = (extract_code_from_response ("ok\n```html\n<p>w</p>\n```".data)).1
        ∧ (generate_website ⟨some ("k".data), [], []⟩ ("make a page".data) 0 1
            (fun _ => Except.ok ("ok\n```html\n<p>w</p>\n```".data))).2.error = []) :=
  ⟨by decide, rfl,
    c1_success_path ⟨some ("k".data), [], []⟩ ("make a page".data)
      ("ok\n```html\n<p>w</p>\n```".data) 0 1
      (fun _ => Except.ok ("ok\n```html\n<p>w</p>\n```".data)) (by decide) rfl⟩

/-- **C3.** With no credential configured (Python-falsy `api_key`),
`generate_website` returns a non-empty error with empty code and
explanation, and the agent state — history included — is returned
completely unchanged. -/
theorem c3_missing_key (s : AgentState) (u : List Char) (t1 t2 : Nat)
    (api : List OutMessage → Except (List Char) (List Char))
    (hkey : hasApiKey s.api_key = false) :
    (generate_website s u t1 t2 api).1 = s
      ∧ (generate_website s u t1 t2 api).2.code = []
      ∧ (generate_website s u t1 t2 api).2.explanation = []
      ∧ (generate_website s u t1 t2 api).2.error ≠ [] := by
  have hg : generate_website s u t1 t2 api
      = (s, ⟨[], [], "API key not set. Please set your OpenAI API key.".data⟩) := by
    unfold generate_website
    rw [if_pos hkey]
  rw [hg]
  refine ⟨rfl, rfl, rfl, ?_⟩
  show ("API key not set. Please set your OpenAI API key.".data : List Char) ≠ []
  decide

theorem c3_missing_key_witness :
    hasApiKey (some ([] : List Char)) = false
      ∧ ((generate_website ⟨some [], [⟨"user".data, "old".data, 0⟩], "x".data⟩
            ("req".data) 3 4
            (fun _ => (Except.ok ("never".data) : Except (List Char) (List Char)))).1
          = ⟨some [], [⟨"user".data, "old".data, 0⟩], "x".data⟩
        ∧ (generate_website ⟨some [], [⟨"user".data, "old".data, 0⟩], "x".data⟩
            ("req".data) 3 4
            (fun _ => (Except.ok ("never".data) : Except (List Char) (List Char)))).2.code = []
        ∧ (generate_website ⟨some [], [⟨"user".data, "old".data, 0⟩], "x".data⟩
            ("req".data) 3 4
            (fun _ => (Except.ok ("never".data) : Except (List Char) (List Char)))).2.explanation = []
        ∧ (generate_website ⟨some [], [⟨"user".data, "old".data, 0⟩], "x".data⟩
            ("req".data) 3 4
            (fun _ => (Except.ok ("never".data) : Except (List Char) (List Char)))).2.error ≠ []) :=
  ⟨by decide,
    c3_missing_key ⟨some [], [⟨"user".data, "old".data, 0⟩], "x".data⟩ ("req".data) 3 4
      (fun _ => (Except.ok ("never".data) : Except (List Char) (List Char))) (by decide)⟩

/-- **C4.** With a credential configured and the completion call
failing with message `e`, `generate_website` returns empty code and
explanation with a non-empty descriptive error, the user message
appended before the call stays in the history (growth of exactly one
message), and no assistant message is appended;
`generated_code` and `api_key` are untouched. -/
theorem c4_transport_failure (s : AgentState) (u e : List Char) (t1 t2 : Nat)
    (api : List OutMessage → Except (List Char) (List Char))
    (hkey : hasApiKey s.api_key = true)
    (herr : api (build_messages ((add_message s ("user".data) u t1).conversation_history))
        = Except.error e) :
    (generate_website s u t1 t2 api).1.conversation_history
        = s.conversation_history ++ [⟨"user".data, u, t1⟩]
      ∧ (generate_website s u t1 t2 api).1.generated_code = s.generated_code
      ∧ (generate_website s u t1 t2 api).1.api_key = s.api_key
      ∧ (generate_website s u t1 t2 api).2
          = ⟨[], [], "Error generating website: ".data ++ e⟩
      ∧ (generate_website s u t1 t2 api).2.error ≠ [] := by
  have hg : generate_website s u t1 t2 api
      = (add_message s ("user".data) u t1,
        ⟨[], [], "Error generating website: ".data ++ e⟩) := by
    unfold generate_website
    rw [if_neg (by simp [hkey])]
    simp only [herr]
  rw [hg]
  refine ⟨rfl, rfl, rfl, rfl, ?_⟩
  exact List.append_ne_nil_of_left_ne_nil (by decide) e

theorem c4_transport_failure_witness :
    hasApiKey (some ("k".data)) = true
      ∧ ((fun _ : List OutMessage =>
            (Except.error ("boom".data) : Except (List Char) (List Char)))
          (build_messages ((add_message ⟨some ("k".data), [], "keep".data⟩ ("user".data)
            ("req".data) 7).conversation_history))
          = (Except.error ("boom".data) : Except (List Char) (List Char)))
      ∧ ((generate_website ⟨some ("k".data), [], "keep".data⟩ ("req".data) 7 8
            (fun _ => (Except.error ("boom".data) : Except (List Char) (List Char)))).1.conversation_history
          = [] ++ [⟨"user".data, "req".data, 7⟩]
        ∧ (generate_website ⟨some ("k".data), [], "keep".data⟩ ("req".data) 7 8
            (fun _ => (Except.error ("boom".data) : Except (List Char) (List Char)))).1.generated_code
          = "keep".data
        ∧ (generate_website ⟨some ("k".data), [], "keep".data⟩ ("req".data) 7 8
            (fun _ => (Except.error ("boom".data) : Except (List Char) (List Char)))).1.api_key
          = some ("k".data)
        ∧ (generate_website ⟨some ("k".data), [], "keep".data⟩ ("req".data) 7 8
            (fun _ => (Except.error ("boom".data) : Except (List Char) (List Char)))).2
          = ⟨[], [], "Error generating website: ".data ++ "boom".data⟩
        ∧ (generate_website ⟨some ("k".data), [], "keep".data⟩ ("req".data) 7 8
            (fun _ => (Except.error ("boom".data) : Except (List Char) (List Char)))).2.error ≠ []) :=
  ⟨by decide, rfl,
    c4_transport_failure ⟨some ("k".data), [], "keep".data⟩ ("req".data) ("boom".data) 7 8
      (fun _ => (Except.error ("boom".data) : Except (List Char) (List Char))) (by decide) rfl⟩

/-- **C5.** After appending the current user request, the outbound
message list is exactly one fixed system-instruction message followed
by the last `min(N, 10)` history messages in original append order, and
the just-appended user request is the final element of that window. -/
theorem c5_outbound_window (s : AgentState) (u : List Char) (t1 : Nat) :
    ∃ pre win,
      (add_message s ("user".data) u t1).conversation_history = pre ++ win
        ∧ win.length
            = min ((add_message s ("user".data) u t1).conversation_history.length) 10
        ∧ build_messages ((add_message s ("user".data) u t1).conversation_history)
            = ⟨"system".data, system_prompt⟩ :: win.map (fun m => ⟨m.role, m.content⟩)
        ∧ win.getLast? = some ⟨"user".data, u, t1⟩ := by
  refine ⟨(s.conversation_history ++ [(⟨"user".data, u, t1⟩ : Message)]).take
      ((s.conversation_history ++ [(⟨"user".data, u, t1⟩ : Message)]).length - 10),
    (s.conversation_history ++ [(⟨"user".data, u, t1⟩ : Message)]).drop
      ((s.conversation_history ++ [(⟨"user".data, u, t1⟩ : Message)]).length - 10),
    ?_, ?_, ?_, ?_⟩
  · simp only [add_message]
    exact (List.take_append_drop _ _).symm
  · simp only [add_message, List.length_drop, List.length_append, List.length_cons,
      List.length_nil]
    omega
  · simp [build_messages, pySliceLast, add_message]
  · exact drop_concat_getLast s.conversation_history (⟨"user".data, u, t1⟩ : Message) _
      (by simp only [List.length_append, List.length_cons, List.length_nil]; omega)

/-- **C9.** `clear_history` (a total function — it cannot fail) leaves
the conversation history empty and `generated_code` empty, so every
subsequent window query of any size returns the empty sequence. -/
theorem c9_clear_history (s : AgentState) :
    (clear_history s).conversation_history = []
      ∧ (clear_history s).generated_code = []
      ∧ ∀ k, pySliceLast k ((clear_history s).conversation_history) = ([] : List Message) := by
  refine ⟨rfl, rfl, fun k => ?_⟩
  simp [clear_history, pySliceLast]
